import Mathlib

/-!
Shallow embedding of the water-ripple simulation core of `WaterRipple.tsx`:
the height-field buffers, the wave-solver loop, the buffer swap, the
refraction render pass and the mouse disturbance loop.  Amplitudes are
modelled as rationals; the JS `~~` operator is modelled as truncation toward
zero (its value on every in-range finite argument), with an out-of-range
typed-array read (JS `undefined`, giving NaN under subtraction, and
`~~NaN = 0`) modelled through `Option`.
-/

namespace WaterRipple

/-- Truncation toward zero of a rational, modelling the JS `~~` operator on
in-range finite values. -/
def truncTowardZero (q : ℚ) : ℤ := if 0 ≤ q then ⌊q⌋ else ⌈q⌉

/-- Read of a typed array at a possibly out-of-range signed index: JS yields
`undefined` out of range, modelled as `none`. -/
def readOpt (l : List ℚ) (i : ℤ) : Option ℚ :=
  if 0 ≤ i ∧ i.toNat < l.length then some (l.getD i.toNat 0) else none

/-- JS `~~(a - b)` where either operand may be `undefined`: an undefined
operand makes the difference NaN, and `~~NaN = 0`. -/
def truncSub : Option ℚ → Option ℚ → ℤ
  | some a, some b => truncTowardZero (a - b)
  | _, _ => 0

/-- One RGBA pixel: one group of four bytes of an ImageData buffer. -/
structure Pixel where
  r : ℕ
  g : ℕ
  b : ℕ
  a : ℕ
deriving DecidableEq

/-- The two wave buffers held in `rippleData.current`. -/
structure RippleData where
  buffer1 : List ℚ
  buffer2 : List ℚ
deriving DecidableEq

/-- The exception raised by the `Float32Array` constructor on a negative
length. -/
inductive ArrayError where
  | rangeError
deriving DecidableEq

/-- JS `new Float32Array(n)`: a zero-filled array of length `n` when
`n ≥ 0`, a RangeError exception when `n` is negative. -/
def newFloat32Array (n : ℤ) : Except ArrayError (List ℚ) :=
  if 0 ≤ n then .ok (List.replicate n.toNat 0) else .error .rangeError

/-- The buffer allocation performed in `img.onload`: `size = width * height`,
then two `Float32Array`s of that length. -/
def create (width height : ℤ) : Except ArrayError RippleData := do
  let size := width * height
  let buffer1 ← newFloat32Array size
  let buffer2 ← newFloat32Array size
  return ⟨buffer1, buffer2⟩

/-- Index list of the solver loop `for (let i = width; i < size - width; i++)`. -/
def interiorRange (w size : ℕ) : List ℕ := List.range' w (size - w - w)

/-- Body of the solver loop at index `i`: reads `buffer1` at the four
neighbours and the not-yet-overwritten `buffer2[i]`. -/
def solveAt (b1 : List ℚ) (s damping : ℚ) (w : ℕ) (b2 : List ℚ) (i : ℕ) : ℚ :=
  ((b1.getD (i - 1) 0 + b1.getD (i + 1) 0 + b1.getD (i - w) 0 + b1.getD (i + w) 0) / s
      - b2.getD i 0) * damping

/-- The solver loop of `update`: `s = Math.max(2.0, speed)`,
`damping = 1 - viscosity`, then each interior index of `buffer2` is
overwritten in ascending order (each index is written once, reading only
`buffer1` and the pre-write `buffer2[i]`). -/
def solve (b1 b2 : List ℚ) (w size : ℕ) (speed viscosity : ℚ) : List ℚ :=
  let s := max 2 speed
  let damping := 1 - viscosity
  (interiorRange w size).foldl (fun b i => b.set i (solveAt b1 s damping w b i)) b2

/-- The buffer swap of `update`: `buffer1` and `buffer2` exchange roles by
reference, no elements are copied. -/
def swapData (d : RippleData) : RippleData := ⟨d.buffer2, d.buffer1⟩

/-- One full physics step of `update`: solve into `buffer2`, then swap. -/
def stepField (d : RippleData) (w size : ℕ) (speed viscosity : ℚ) : RippleData :=
  swapData ⟨d.buffer1, solve d.buffer1 d.buffer2 w size speed viscosity⟩

/-- `~~(buffer1[i - 1] - buffer1[i + 1])` of the render loop. -/
def xOffset (b1 : List ℚ) (i : ℕ) : ℤ :=
  truncSub (readOpt b1 ((i : ℤ) - 1)) (readOpt b1 ((i : ℤ) + 1))

/-- `~~(buffer1[i - width] - buffer1[i + width])` of the render loop. -/
def yOffset (b1 : List ℚ) (w i : ℕ) : ℤ :=
  truncSub (readOpt b1 ((i : ℤ) - (w : ℤ))) (readOpt b1 ((i : ℤ) + (w : ℤ)))

/-- `Math.max(0, Math.min(size - 1, reload))` of the render loop. -/
def clampIdx (size : ℕ) (reload : ℤ) : ℤ := max 0 (min ((size : ℤ) - 1) reload)

/-- One iteration of the render loop: output pixel `ict` with the source RGB
taken at the clamped displaced index when an offset is nonzero, and alpha
forced to 255 in both branches. -/
def renderPixel (b1 : List ℚ) (w size : ℕ) (img : List Pixel) (i : ℕ) : Pixel :=
  let xo := xOffset b1 i
  let yo := yOffset b1 w i
  if xo ≠ 0 ∨ yo ≠ 0 then
    let reload := (i : ℤ) + xo + yo * (w : ℤ)
    let finalIdx := clampIdx size reload
    let p := img.getD finalIdx.toNat ⟨0, 0, 0, 0⟩
    ⟨p.r, p.g, p.b, 255⟩
  else
    let p := img.getD i ⟨0, 0, 0, 0⟩
    ⟨p.r, p.g, p.b, 255⟩

/-- The render loop of `update` over all pixel indices `0 ≤ i < size`. -/
def render (b1 : List ℚ) (w size : ℕ) (img : List Pixel) : List Pixel :=
  (List.range size).map (renderPixel b1 w size img)

/-- Modelled from the spec's words (§4.4): offsets truncate toward zero the
neighbour differences of the current buffer, the sample index is clamped to
the buffer range, and the output pixel copies the source RGB, with alpha
forced opaque; meaningful for indices whose four neighbour reads exist. -/
def renderPixelSpec (b1 : List ℚ) (w size : ℕ) (img : List Pixel) (i : ℕ) : Pixel :=
  let xo := truncTowardZero (b1.getD (i - 1) 0 - b1.getD (i + 1) 0)
  let yo := truncTowardZero (b1.getD (i - w) 0 - b1.getD (i + w) 0)
  let sampleIndex := clampIdx size ((i : ℤ) + xo + yo * (w : ℤ))
  let p := if xo = 0 ∧ yo = 0 then img.getD i ⟨0, 0, 0, 0⟩
    else img.getD sampleIndex.toNat ⟨0, 0, 0, 0⟩
  ⟨p.r, p.g, p.b, 255⟩

/-- The ascending integer loop `for (let v = a; v < b; v++)`. -/
def intRange (a b : ℤ) : List ℤ := (List.range (b - a).toNat).map (fun t : ℕ => a + (t : ℤ))

/-- Guarded write of the disturbance loop body: inside the field bounds,
`buffer1[j * width + k] = strength`; outside, no write. -/
def injectWrite (w h : ℕ) (strength : ℚ) (b : List ℚ) (j k : ℤ) : List ℚ :=
  if 0 ≤ j ∧ j < (h : ℤ) ∧ 0 ≤ k ∧ k < (w : ℤ) then
    b.set (j * (w : ℤ) + k).toNat strength
  else b

/-- The nested disturbance loops of `handleMouseMove`: `j` over
`[y - rippleSize, y + rippleSize)`, `k` over `[x - rippleSize, x + rippleSize)`. -/
def inject (b : List ℚ) (w h : ℕ) (x y r : ℤ) (strength : ℚ) : List ℚ :=
  (intRange (y - r) (y + r)).foldl
    (fun acc j =>
      (intRange (x - r) (x + r)).foldl (fun acc2 k => injectWrite w h strength acc2 j k) acc)
    b

/-- `handleMouseMove` writes only into `buffer1`; `buffer2` is untouched. -/
def injectField (d : RippleData) (w h : ℕ) (x y r : ℤ) (strength : ℚ) : RippleData :=
  { d with buffer1 := inject d.buffer1 w h x y r strength }

/-- Total absolute amplitude over both buffers of the field. -/
def energy (d : RippleData) : ℚ :=
  (d.buffer1.map (fun q => |q|)).sum + (d.buffer2.map (fun q => |q|)).sum

/-- Sum of absolute values of a buffer over the solver's interior index
range. -/
def interiorAbsSum (b : List ℚ) (w size : ℕ) : ℚ :=
  ((interiorRange w size).map (fun i => |b.getD i 0|)).sum

/-! ## Generic list lemmas -/

lemma getD_set_self (l : List ℚ) (i : ℕ) (v : ℚ) (h : i < l.length) :
    (l.set i v).getD i 0 = v := by
  rw [List.getD_eq_getElem?_getD, List.getElem?_set_self h]
  rfl

lemma getD_set_ne (l : List ℚ) {i j : ℕ} (h : i ≠ j) (v : ℚ) :
    (l.set i v).getD j 0 = l.getD j 0 := by
  rw [List.getD_eq_getElem?_getD, List.getElem?_set_ne h, List.getD_eq_getElem?_getD]

lemma getD_of_length_le (l : List ℚ) (i : ℕ) (h : l.length ≤ i) :
    l.getD i 0 = 0 := by
  rw [List.getD_eq_getElem?_getD, List.getElem?_eq_none h]
  rfl

/-! ## Characterization of the solver loop -/

lemma solveAt_congr (b1 : List ℚ) (s d : ℚ) (w : ℕ) {b b2 : List ℚ} (i : ℕ)
    (h : b2.getD i 0 = b.getD i 0) : solveAt b1 s d w b2 i = solveAt b1 s d w b i := by
  simp only [solveAt, h]

lemma solve_foldl_getD (b1 : List ℚ) (s d : ℚ) (w : ℕ) :
    ∀ (n a : ℕ) (b : List ℚ) (t : ℕ),
      ((List.range' a n).foldl (fun acc i => acc.set i (solveAt b1 s d w acc i)) b).getD t 0 =
        if a ≤ t ∧ t < a + n ∧ t < b.length then solveAt b1 s d w b t else b.getD t 0 := by
  intro n
  induction n with
  | zero =>
    intro a b t
    rw [if_neg (by omega)]
    rfl
  | succ n ih =>
    intro a b t
    rw [List.range'_succ, List.foldl_cons, ih (a + 1) (b.set a (solveAt b1 s d w b a)) t]
    simp only [List.length_set]
    by_cases hta : t = a
    · subst hta
      rw [if_neg (by omega)]
      by_cases hlen : t < b.length
      · rw [getD_set_self b t _ hlen, if_pos ⟨le_refl t, by omega, hlen⟩]
      · rw [if_neg (by omega)]
        have hle : b.length ≤ t := by omega
        rw [List.set_eq_of_length_le hle]
    · have hset : (b.set a (solveAt b1 s d w b a)).getD t 0 = b.getD t 0 :=
        getD_set_ne b (fun hc => hta hc.symm) _
      by_cases hcond : a + 1 ≤ t ∧ t < a + 1 + n ∧ t < b.length
      · rw [if_pos hcond, if_pos (by omega), solveAt_congr b1 s d w t hset]
      · rw [if_neg hcond, if_neg (by omega), hset]

lemma solve_getD (b1 b2 : List ℚ) (w size : ℕ) (speed viscosity : ℚ) (t : ℕ) :
    (solve b1 b2 w size speed viscosity).getD t 0 =
      if w ≤ t ∧ t < size - w ∧ t < b2.length then
        solveAt b1 (max 2 speed) (1 - viscosity) w b2 t
      else b2.getD t 0 := by
  simp only [solve, interiorRange]
  rw [solve_foldl_getD]
  by_cases hc : w ≤ t ∧ t < size - w ∧ t < b2.length
  · rw [if_pos (by omega), if_pos hc]
  · rw [if_neg (by omega), if_neg hc]

lemma solve_length (b1 b2 : List ℚ) (w size : ℕ) (speed viscosity : ℚ) :
    (solve b1 b2 w size speed viscosity).length = b2.length := by
  simp only [solve, interiorRange]
  generalize List.range' w (size - w - w) = l
  induction l generalizing b2 with
  | nil => rfl
  | cons i l ih => rw [List.foldl_cons, ih, List.length_set]

/-- C1: one solver step writes every interior scratch cell
`i ∈ [width, width*height - width)` as
`N[i] = ((C[i-1] + C[i+1] + C[i-width] + C[i+width]) / max 2 speed - N[i]) * (1 - viscosity)`,
where `C` is the current buffer and `N[i]` on the right is the pre-step
scratch value; in particular any `speed` below 2 is replaced by 2 in the
divisor. -/
theorem C1_solver_interior_formula (b1 b2 : List ℚ) (w h : ℕ) (speed viscosity : ℚ) (i : ℕ)
    (hlen : b2.length = w * h) (hlo : w ≤ i) (hhi : i < w * h - w) :
    (solve b1 b2 w (w * h) speed viscosity).getD i 0 =
      ((b1.getD (i - 1) 0 + b1.getD (i + 1) 0 + b1.getD (i - w) 0 + b1.getD (i + w) 0)
          / max 2 speed - b2.getD i 0) * (1 - viscosity) := by
  rw [solve_getD, if_pos ⟨hlo, hhi, by omega⟩]
  rfl

/-- Witness for C1 at `width = 3`, `height = 3`, `i = 4`, `speed = 2`,
`viscosity = 1/25`. -/
theorem C1_solver_interior_formula_witness :
    (solve [0, 0, 0, 100, 0, 0, 0, 0, 0] [0, 0, 0, 0, 7, 0, 0, 0, 0] 3 (3 * 3) 2 (1/25)).getD 4 0 =
      (([0, 0, 0, 100, 0, 0, 0, 0, (0:ℚ)].getD 3 0 + [0, 0, 0, 100, 0, 0, 0, 0, (0:ℚ)].getD 5 0 +
            [0, 0, 0, 100, 0, 0, 0, 0, (0:ℚ)].getD 1 0 + [0, 0, 0, 100, 0, 0, 0, 0, (0:ℚ)].getD 7 0)
          / max 2 2 - [0, 0, 0, 0, 7, 0, 0, 0, (0:ℚ)].getD 4 0) * (1 - 1/25) :=
  C1_solver_interior_formula [0, 0, 0, 100, 0, 0, 0, 0, 0] [0, 0, 0, 0, 7, 0, 0, 0, 0]
    3 3 2 (1/25) 4 rfl (by decide) (by decide)

/-- C9: with `viscosity = 1` the step does not fail, the damping factor is 0,
and every interior scratch cell is written to exactly 0, regardless of the
current buffer and the pre-step scratch values. -/
theorem C9_viscosity_one_writes_zero (b1 b2 : List ℚ) (w h : ℕ) (speed : ℚ) (i : ℕ)
    (hlen : b2.length = w * h) (hlo : w ≤ i) (hhi : i < w * h - w) :
    (solve b1 b2 w (w * h) speed 1).getD i 0 = 0 := by
  rw [solve_getD, if_pos ⟨hlo, hhi, by omega⟩]
  simp [solveAt]

/-- Witness for C9 at `width = 3`, `height = 3`, `i = 5`. -/
theorem C9_viscosity_one_writes_zero_witness :
    (solve [1, 2, 3, 4, 5, 6, 7, 8, 9] [9, 8, 7, 6, 5, 4, 3, 2, 1] 3 (3 * 3) 2 1).getD 5 0 = 0 :=
  C9_viscosity_one_writes_zero [1, 2, 3, 4, 5, 6, 7, 8, 9] [9, 8, 7, 6, 5, 4, 3, 2, 1]
    3 3 2 5 rfl (by decide) (by decide)

/-! ## Typed-array reads for the render pass -/

lemma readOpt_of_lt (l : List ℚ) (i : ℤ) (h0 : 0 ≤ i) (hl : i.toNat < l.length) :
    readOpt l i = some (l.getD i.toNat 0) := by
  rw [readOpt, if_pos ⟨h0, hl⟩]

lemma readOpt_eq_none (l : List ℚ) (i : ℤ) (h : i < 0 ∨ (l.length : ℤ) ≤ i) :
    readOpt l i = none := by
  rw [readOpt, if_neg]
  rintro ⟨h0, hl⟩
  rcases h with h | h <;> omega

lemma render_getD (b1 : List ℚ) (w size : ℕ) (img : List Pixel) (i : ℕ) (h : i < size) :
    (render b1 w size img).getD i ⟨0, 0, 0, 0⟩ = renderPixel b1 w size img i := by
  simp only [render]
  rw [List.getD_eq_getElem?_getD, List.getElem?_map, List.getElem?_range h]
  rfl

lemma renderPixel_alpha (b1 : List ℚ) (w size : ℕ) (img : List Pixel) (i : ℕ) :
    (renderPixel b1 w size img i).a = 255 := by
  simp only [renderPixel]
  split <;> rfl

/-- C2: for every pixel whose four neighbour reads are in range, the rendered
pixel is exactly the spec formula (offsets truncating the neighbour
differences toward zero, clamped displaced sampling when an offset is
nonzero, direct copy otherwise), and for every pixel index whatsoever the
output alpha is forced to 255. -/
theorem C2_render_refines_spec (b1 : List ℚ) (w size : ℕ) (img : List Pixel) (i : ℕ)
    (hw : 1 ≤ w) (hlo : w ≤ i) (hhi : i + w < size) (hlen : b1.length = size) :
    (render b1 w size img).getD i ⟨0, 0, 0, 0⟩ = renderPixelSpec b1 w size img i ∧
    xOffset b1 i = truncTowardZero (b1.getD (i - 1) 0 - b1.getD (i + 1) 0) ∧
    yOffset b1 w i = truncTowardZero (b1.getD (i - w) 0 - b1.getD (i + w) 0) ∧
    ∀ t, t < size → ((render b1 w size img).getD t ⟨0, 0, 0, 0⟩).a = 255 := by
  have e1 : ((i : ℤ) - 1).toNat = i - 1 := by omega
  have e2 : ((i : ℤ) + 1).toNat = i + 1 := by omega
  have e3 : ((i : ℤ) - (w : ℤ)).toNat = i - w := by omega
  have e4 : ((i : ℤ) + (w : ℤ)).toNat = i + w := by omega
  have hx : xOffset b1 i = truncTowardZero (b1.getD (i - 1) 0 - b1.getD (i + 1) 0) := by
    rw [xOffset, readOpt_of_lt b1 ((i : ℤ) - 1) (by omega) (by omega),
      readOpt_of_lt b1 ((i : ℤ) + 1) (by omega) (by omega), truncSub, e1, e2]
  have hy : yOffset b1 w i = truncTowardZero (b1.getD (i - w) 0 - b1.getD (i + w) 0) := by
    rw [yOffset, readOpt_of_lt b1 ((i : ℤ) - (w : ℤ)) (by omega) (by omega),
      readOpt_of_lt b1 ((i : ℤ) + (w : ℤ)) (by omega) (by omega), truncSub, e3, e4]
  refine ⟨?_, hx, hy, ?_⟩
  · rw [render_getD b1 w size img i (by omega)]
    simp only [renderPixel, renderPixelSpec, hx, hy]
    by_cases hxy : truncTowardZero (b1.getD (i - 1) 0 - b1.getD (i + 1) 0) = 0 ∧
        truncTowardZero (b1.getD (i - w) 0 - b1.getD (i + w) 0) = 0
    · rw [if_neg (by push_neg; exact hxy), if_pos hxy]
    · rw [if_pos (by rcases not_and_or.mp hxy with h | h <;> [exact Or.inl h; exact Or.inr h]),
        if_neg hxy]
  · intro t ht
    rw [render_getD b1 w size img t ht]
    exact renderPixel_alpha b1 w size img t

/-- Witness for C2 at `width = 1`, `size = 3`, `i = 1`. -/
theorem C2_render_refines_spec_witness :
    (render [5, 0, 0] 1 3 [⟨1, 2, 3, 4⟩, ⟨5, 6, 7, 8⟩, ⟨9, 10, 11, 12⟩]).getD 1 ⟨0, 0, 0, 0⟩ =
      renderPixelSpec [5, 0, 0] 1 3 [⟨1, 2, 3, 4⟩, ⟨5, 6, 7, 8⟩, ⟨9, 10, 11, 12⟩] 1 ∧
    ((render [5, 0, 0] 1 3 [⟨1, 2, 3, 4⟩, ⟨5, 6, 7, 8⟩, ⟨9, 10, 11, 12⟩]).getD 2 ⟨0, 0, 0, 0⟩).a =
      255 := by
  have h := C2_render_refines_spec [5, 0, 0] 1 3 [⟨1, 2, 3, 4⟩, ⟨5, 6, 7, 8⟩, ⟨9, 10, 11, 12⟩] 1
    (by decide) (by decide) (by decide) rfl
  exact ⟨h.1, h.2.2.2 2 (by decide)⟩

/-- C3: the displaced sample index used by render is
`max 0 (min (size - 1) (i + xOffset + yOffset * width))`: it always lies in
`[0, size - 1]`, an underflowing index is clamped to 0, an overflowing one to
`size - 1`, an in-range one is kept; consequently every source-image read of
the render pass happens at an in-range index. -/
theorem C3_clamped_sampling (size : ℕ) (hsize : 1 ≤ size) :
    (∀ reload : ℤ,
      0 ≤ clampIdx size reload ∧ clampIdx size reload ≤ (size : ℤ) - 1 ∧
      (reload < 0 → clampIdx size reload = 0) ∧
      ((size : ℤ) - 1 < reload → clampIdx size reload = (size : ℤ) - 1) ∧
      (0 ≤ reload → reload ≤ (size : ℤ) - 1 → clampIdx size reload = reload)) ∧
    ∀ (b1 : List ℚ) (w : ℕ) (img : List Pixel) (i : ℕ), i < size →
      ∃ t : ℕ, t < size ∧
        (renderPixel b1 w size img i).r = (img.getD t ⟨0, 0, 0, 0⟩).r ∧
        (renderPixel b1 w size img i).g = (img.getD t ⟨0, 0, 0, 0⟩).g ∧
        (renderPixel b1 w size img i).b = (img.getD t ⟨0, 0, 0, 0⟩).b ∧
        (xOffset b1 i ≠ 0 ∨ yOffset b1 w i ≠ 0 →
          (t : ℤ) = clampIdx size ((i : ℤ) + xOffset b1 i + yOffset b1 w i * (w : ℤ))) := by
  constructor
  · intro reload
    simp only [clampIdx]
    refine ⟨by omega, by omega, by omega, by omega, by omega⟩
  · intro b1 w img i hi
    by_cases hoff : xOffset b1 i ≠ 0 ∨ yOffset b1 w i ≠ 0
    · refine ⟨(clampIdx size ((i : ℤ) + xOffset b1 i + yOffset b1 w i * (w : ℤ))).toNat,
        ?_, ?_, ?_, ?_, ?_⟩
      · have : 0 ≤ clampIdx size ((i : ℤ) + xOffset b1 i + yOffset b1 w i * (w : ℤ)) ∧
            clampIdx size ((i : ℤ) + xOffset b1 i + yOffset b1 w i * (w : ℤ)) ≤ (size : ℤ) - 1 := by
          simp only [clampIdx]
          omega
        omega
      · simp only [renderPixel, if_pos hoff]
      · simp only [renderPixel, if_pos hoff]
      · simp only [renderPixel, if_pos hoff]
      · intro _
        have : 0 ≤ clampIdx size ((i : ℤ) + xOffset b1 i + yOffset b1 w i * (w : ℤ)) := by
          simp only [clampIdx]; omega
        omega
    · refine ⟨i, hi, ?_, ?_, ?_, fun hc => absurd hc hoff⟩ <;>
        simp only [renderPixel, if_neg hoff]

/-- Witness for C3 at `size = 2`, `reload = -7`. -/
theorem C3_clamped_sampling_witness : 0 ≤ clampIdx 2 (-7) ∧ clampIdx 2 (-7) = 0 := by
  have h := C3_clamped_sampling 2 (by decide)
  exact ⟨(h.1 (-7)).1, (h.1 (-7)).2.2.1 (by decide)⟩

/-- Source image used for the C6 example: pixel `t` has red byte `t` and a
non-opaque alpha 7. -/
def pxs9 : List Pixel :=
  [⟨0, 0, 0, 7⟩, ⟨1, 0, 0, 7⟩, ⟨2, 0, 0, 7⟩, ⟨3, 0, 0, 7⟩, ⟨4, 0, 0, 7⟩,
    ⟨5, 0, 0, 7⟩, ⟨6, 0, 0, 7⟩, ⟨7, 0, 0, 7⟩, ⟨8, 0, 0, 7⟩]

/-- C6 counterexample: in a 3×3 field whose border rows are all zero and
whose only nonzero cell is the interior cell at index 3, the top-row pixel
`i = 2` gets horizontal offset `~~(C[1] - C[3]) = -60 ≠ 0`, and its rendered
red byte differs from the source red byte at index 2 — so border-row offsets
are not always zero and border output can differ from the source. -/
theorem C6_counterexample :
    xOffset [0, 0, 0, 60, 0, 0, 0, 0, 0] 2 = -60 ∧
    yOffset [0, 0, 0, 60, 0, 0, 0, 0, 0] 3 2 = 0 ∧
    ((render [0, 0, 0, 60, 0, 0, 0, 0, 0] 3 9 pxs9).getD 2 ⟨0, 0, 0, 0⟩).r ≠
      (pxs9.getD 2 ⟨0, 0, 0, 0⟩).r := by
  refine ⟨by with_unfolding_all rfl, by with_unfolding_all rfl, by with_unfolding_all decide⟩

/-- C6 amended: border-row pixels always get vertical offset 0 (their
vertical neighbour read is out of bounds, and `~~` of the NaN difference is
0); the horizontal offset need not vanish (at `i = width - 1` and
`i = size - width` the horizontal neighbour lies in the adjacent interior
row), but whenever it is also 0 the output pixel equals the source RGB at the
same index with alpha forced opaque. -/
theorem C6_border_rows (b1 : List ℚ) (w h : ℕ) (img : List Pixel) (i : ℕ)
    (hlen : b1.length = w * h) (hborder : i < w ∨ w * h - w ≤ i) (hi : i < w * h) :
    yOffset b1 w i = 0 ∧
    (xOffset b1 i = 0 →
      (render b1 w (w * h) img).getD i ⟨0, 0, 0, 0⟩ =
        ⟨(img.getD i ⟨0, 0, 0, 0⟩).r, (img.getD i ⟨0, 0, 0, 0⟩).g,
          (img.getD i ⟨0, 0, 0, 0⟩).b, 255⟩) := by
  have hy : yOffset b1 w i = 0 := by
    rcases hborder with hb | hb
    · rw [yOffset, readOpt_eq_none b1 ((i : ℤ) - (w : ℤ)) (Or.inl (by omega))]
      cases readOpt b1 ((i : ℤ) + (w : ℤ)) <;> rfl
    · rw [yOffset, readOpt_eq_none b1 ((i : ℤ) + (w : ℤ)) (Or.inr (by omega))]
      cases readOpt b1 ((i : ℤ) - (w : ℤ)) <;> rfl
  refine ⟨hy, fun hx => ?_⟩
  rw [render_getD b1 w (w * h) img i hi]
  simp only [renderPixel, hx, hy]
  rw [if_neg (by push_neg; exact ⟨rfl, rfl⟩)]

/-- Witness for C6 amended at the top-left corner pixel `i = 0` of the same
3×3 field. -/
theorem C6_border_rows_witness :
    yOffset [0, 0, 0, 60, 0, 0, 0, 0, 0] 3 0 = 0 ∧
    (render [0, 0, 0, 60, 0, 0, 0, 0, 0] 3 (3 * 3) pxs9).getD 0 ⟨0, 0, 0, 0⟩ =
      ⟨(pxs9.getD 0 ⟨0, 0, 0, 0⟩).r, (pxs9.getD 0 ⟨0, 0, 0, 0⟩).g,
        (pxs9.getD 0 ⟨0, 0, 0, 0⟩).b, 255⟩ := by
  have h := C6_border_rows [0, 0, 0, 60, 0, 0, 0, 0, 0] 3 3 pxs9 0 rfl (Or.inl (by decide))
    (by decide)
  exact ⟨h.1, h.2 (by decide)⟩

/-! ## Creation and swap -/

/-- C8: the buffer swap exchanges exactly the identities of the two buffers
(no elements are rewritten), and doing it twice restores the original field. -/
theorem C8_swap_involution (d : RippleData) :
    swapData (swapData d) = d ∧ (swapData d).buffer1 = d.buffer2 ∧
      (swapData d).buffer2 = d.buffer1 :=
  ⟨rfl, rfl, rfl⟩

/-- C5 counterexample: at `width = 0`, `height = 5` the product is `0 ≤ 0`,
yet `create` succeeds with two empty buffers instead of failing with any
error. -/
theorem C5_counterexample :
    (0 : ℤ) * 5 ≤ 0 ∧ create 0 5 = Except.ok ⟨[], []⟩ :=
  ⟨by decide, rfl⟩

/-- C5 amended: `create` performs no dimension validation: whenever
`width * height ≥ 0` (including the degenerate `width * height = 0` of a zero
width or height) it succeeds with two zero-filled buffers of length
`width * height`, and only a negative product aborts, with the typed-array
constructor's RangeError rather than an InvalidDimensions error. -/
theorem C5_create_no_validation (width height : ℤ) :
    (0 ≤ width * height →
      create width height =
        Except.ok ⟨List.replicate (width * height).toNat 0,
          List.replicate (width * height).toNat 0⟩) ∧
    (width * height < 0 → create width height = Except.error ArrayError.rangeError) := by
  constructor
  · intro hpos
    have hbuf : newFloat32Array (width * height) =
        Except.ok (List.replicate (width * height).toNat 0) := by
      rw [newFloat32Array, if_pos hpos]
    simp only [create, hbuf]
    rfl
  · intro hneg
    have hbuf : newFloat32Array (width * height) = Except.error ArrayError.rangeError := by
      rw [newFloat32Array, if_neg (by omega)]
    simp only [create, hbuf]
    rfl

/-- Witness for C5 amended at `width = 2, height = 3` and at
`width = -1, height = 3`. -/
theorem C5_create_no_validation_witness :
    create 2 3 = Except.ok ⟨List.replicate ((2 * 3 : ℤ)).toNat 0,
      List.replicate ((2 * 3 : ℤ)).toNat 0⟩ ∧
    create (-1) 3 = Except.error ArrayError.rangeError :=
  ⟨(C5_create_no_validation 2 3).1 (by decide), (C5_create_no_validation (-1) 3).2 (by decide)⟩

/-! ## Characterization of the disturbance loops -/

lemma mem_intRange (a b z : ℤ) : z ∈ intRange a b ↔ a ≤ z ∧ z < b := by
  rw [intRange]
  constructor
  · intro hz
    obtain ⟨t, ht, rfl⟩ := List.mem_map.mp hz
    have := List.mem_range.mp ht
    omega
  · intro hz
    exact List.mem_map.mpr ⟨(z - a).toNat, List.mem_range.mpr (by omega), by omega⟩

lemma injectWrite_length (w h : ℕ) (s : ℚ) (b : List ℚ) (j k : ℤ) :
    (injectWrite w h s b j k).length = b.length := by
  rw [injectWrite]
  split
  · exact List.length_set b _ s
  · rfl

lemma foldl_injectWrite_length (w h : ℕ) (s : ℚ) (j : ℤ) (kl : List ℤ) (b : List ℚ) :
    (kl.foldl (fun acc k => injectWrite w h s acc j k) b).length = b.length := by
  induction kl generalizing b with
  | nil => rfl
  | cons k ks ih => rw [List.foldl_cons, ih, injectWrite_length]

lemma foldl_injectWrite_getD (w h : ℕ) (s : ℚ) (j : ℤ) (kl : List ℤ) :
    ∀ (b : List ℚ) (t : ℕ), t < b.length →
      (kl.foldl (fun acc k => injectWrite w h s acc j k) b).getD t 0 =
        if ∃ k ∈ kl, (0 ≤ j ∧ j < (h : ℤ) ∧ 0 ≤ k ∧ k < (w : ℤ)) ∧
            (j * (w : ℤ) + k).toNat = t then s
        else b.getD t 0 := by
  induction kl with
  | nil =>
    intro b t ht
    rw [List.foldl_nil, if_neg]
    rintro ⟨k, hk, _⟩
    exact absurd hk (List.not_mem_nil k)
  | cons k ks ih =>
    intro b t ht
    have hlb : (injectWrite w h s b j k).length = b.length := injectWrite_length w h s b j k
    rw [List.foldl_cons, ih (injectWrite w h s b j k) t (by omega)]
    by_cases hks : ∃ k2 ∈ ks, (0 ≤ j ∧ j < (h : ℤ) ∧ 0 ≤ k2 ∧ k2 < (w : ℤ)) ∧
        (j * (w : ℤ) + k2).toNat = t
    · obtain ⟨k2, hk2, hc⟩ := hks
      rw [if_pos ⟨k2, hk2, hc⟩, if_pos ⟨k2, List.mem_cons_of_mem k hk2, hc⟩]
    · rw [if_neg hks]
      by_cases hk : (0 ≤ j ∧ j < (h : ℤ) ∧ 0 ≤ k ∧ k < (w : ℤ)) ∧ (j * (w : ℤ) + k).toNat = t
      · rw [if_pos ⟨k, List.mem_cons_self k ks, hk⟩, injectWrite, if_pos hk.1, ← hk.2]
        exact getD_set_self b _ s (by omega)
      · rw [if_neg ?hnone, injectWrite]
        case hnone =>
          rintro ⟨k2, hmem, hc⟩
          rcases List.mem_cons.mp hmem with rfl | hmem2
          · exact hk hc
          · exact hks ⟨k2, hmem2, hc⟩
        split
        · next hguard =>
            apply getD_set_ne
            intro he
            exact hk ⟨hguard, he⟩
        · rfl

lemma inject_getD (b : List ℚ) (w h : ℕ) (x y r : ℤ) (s : ℚ) (t : ℕ) (ht : t < b.length) :
    (inject b w h x y r s).getD t 0 =
      if ∃ j ∈ intRange (y - r) (y + r), ∃ k ∈ intRange (x - r) (x + r),
          (0 ≤ j ∧ j < (h : ℤ) ∧ 0 ≤ k ∧ k < (w : ℤ)) ∧ (j * (w : ℤ) + k).toNat = t
      then s else b.getD t 0 := by
  rw [inject]
  generalize intRange (y - r) (y + r) = jl
  induction jl generalizing b with
  | nil =>
    rw [List.foldl_nil, if_neg]
    rintro ⟨j, hj, _⟩
    exact absurd hj (List.not_mem_nil j)
  | cons j js ih =>
    have hlb : ((intRange (x - r) (x + r)).foldl
        (fun acc2 k => injectWrite w h s acc2 j k) b).length = b.length :=
      foldl_injectWrite_length w h s j _ b
    rw [List.foldl_cons, ih ((intRange (x - r) (x + r)).foldl
      (fun acc2 k => injectWrite w h s acc2 j k) b) (by omega)]
    by_cases hjs : ∃ j2 ∈ js, ∃ k ∈ intRange (x - r) (x + r),
        (0 ≤ j2 ∧ j2 < (h : ℤ) ∧ 0 ≤ k ∧ k < (w : ℤ)) ∧ (j2 * (w : ℤ) + k).toNat = t
    · obtain ⟨j2, hj2, hc⟩ := hjs
      rw [if_pos ⟨j2, hj2, hc⟩, if_pos ⟨j2, List.mem_cons_of_mem j hj2, hc⟩]
    · rw [if_neg hjs, foldl_injectWrite_getD w h s j (intRange (x - r) (x + r)) b t ht]
      by_cases hj : ∃ k ∈ intRange (x - r) (x + r),
          (0 ≤ j ∧ j < (h : ℤ) ∧ 0 ≤ k ∧ k < (w : ℤ)) ∧ (j * (w : ℤ) + k).toNat = t
      · rw [if_pos hj, if_pos ⟨j, List.mem_cons_self j js, hj⟩]
      · rw [if_neg hj, if_neg ?hnone2]
        case hnone2 =>
          rintro ⟨j2, hmem, hc⟩
          rcases List.mem_cons.mp hmem with rfl | hmem2
          · exact hj hc
          · exact hjs ⟨j2, hmem2, hc⟩

lemma inject_cover_iff (w h : ℕ) (x y r : ℤ) (a b : ℕ) (ha : a < h) (hb : b < w) :
    (∃ j ∈ intRange (y - r) (y + r), ∃ k ∈ intRange (x - r) (x + r),
        (0 ≤ j ∧ j < (h : ℤ) ∧ 0 ≤ k ∧ k < (w : ℤ)) ∧
        (j * (w : ℤ) + k).toNat = a * w + b) ↔
      y - r ≤ (a : ℤ) ∧ (a : ℤ) < y + r ∧ x - r ≤ (b : ℤ) ∧ (b : ℤ) < x + r := by
  have hcast : ((a * w + b : ℕ) : ℤ) = (a : ℤ) * (w : ℤ) + (b : ℤ) := by push_cast; ring
  constructor
  · rintro ⟨j, hj, k, hk, ⟨hj0, hjh, hk0, hkw⟩, hidx⟩
    obtain ⟨hj1, hj2⟩ := (mem_intRange _ _ j).mp hj
    obtain ⟨hk1, hk2⟩ := (mem_intRange _ _ k).mp hk
    have hjw : 0 ≤ j * (w : ℤ) := mul_nonneg hj0 (by omega)
    have heq : j * (w : ℤ) + k = (a : ℤ) * (w : ℤ) + (b : ℤ) := by omega
    have hja : j = (a : ℤ) := by
      rcases lt_trichotomy j (a : ℤ) with hlt | heq2 | hgt
      · exfalso
        have h5 : j * (w : ℤ) ≤ ((a : ℤ) - 1) * (w : ℤ) :=
          mul_le_mul_of_nonneg_right (by omega) (by omega)
        have h6 : ((a : ℤ) - 1) * (w : ℤ) = (a : ℤ) * (w : ℤ) - (w : ℤ) := by ring
        omega
      · exact heq2
      · exfalso
        have h5 : ((a : ℤ) + 1) * (w : ℤ) ≤ j * (w : ℤ) :=
          mul_le_mul_of_nonneg_right (by omega) (by omega)
        have h6 : ((a : ℤ) + 1) * (w : ℤ) = (a : ℤ) * (w : ℤ) + (w : ℤ) := by ring
        omega
    subst hja
    have hkb : k = (b : ℤ) := by omega
    omega
  · rintro ⟨h1, h2, h3, h4⟩
    refine ⟨(a : ℤ), (mem_intRange _ _ _).mpr ⟨h1, h2⟩, (b : ℤ),
      (mem_intRange _ _ _).mpr ⟨h3, h4⟩, ⟨by omega, by omega, by omega, by omega⟩, by omega⟩

lemma foldl_id_of_noop (l : List ℤ) (f : List ℚ → ℤ → List ℚ) (b : List ℚ)
    (hf : ∀ b2 z, z ∈ l → f b2 z = b2) : l.foldl f b = b := by
  induction l generalizing b with
  | nil => rfl
  | cons z zs ih =>
    rw [List.foldl_cons, hf b z (List.mem_cons_self z zs)]
    exact ih b (fun b2 z2 hz2 => hf b2 z2 (List.mem_cons_of_mem z hz2))

lemma inject_of_outside (b : List ℚ) (w h : ℕ) (x y r : ℤ) (s : ℚ)
    (hout : y + r ≤ 0 ∨ (h : ℤ) ≤ y - r ∨ x + r ≤ 0 ∨ (w : ℤ) ≤ x - r) :
    inject b w h x y r s = b := by
  rw [inject]
  apply foldl_id_of_noop
  intro b2 j hj
  apply foldl_id_of_noop
  intro b3 k hk
  obtain ⟨hj1, hj2⟩ := (mem_intRange _ _ j).mp hj
  obtain ⟨hk1, hk2⟩ := (mem_intRange _ _ k).mp hk
  rw [injectWrite, if_neg]
  rintro ⟨hc1, hc2, hc3, hc4⟩
  rcases hout with ho | ho | ho | ho <;> omega

/-- C4: `inject` overwrites with `strength` exactly the current-buffer cells
`(k, j)` with `y - r ≤ j < y + r`, `x - r ≤ k < x + r`, clipped to the field
bounds; every other current-buffer cell and the whole scratch buffer are
unchanged, and a square entirely outside the bounds has no effect (and, being
a total function, the loop raises no error). -/
theorem C4_inject_locality (d : RippleData) (w h : ℕ) (x y r : ℤ) (s : ℚ)
    (hlen : d.buffer1.length = w * h) :
    (injectField d w h x y r s).buffer2 = d.buffer2 ∧
    (∀ a b : ℕ, a < h → b < w →
      (injectField d w h x y r s).buffer1.getD (a * w + b) 0 =
        if y - r ≤ (a : ℤ) ∧ (a : ℤ) < y + r ∧ x - r ≤ (b : ℤ) ∧ (b : ℤ) < x + r then s
        else d.buffer1.getD (a * w + b) 0) ∧
    ((y + r ≤ 0 ∨ (h : ℤ) ≤ y - r ∨ x + r ≤ 0 ∨ (w : ℤ) ≤ x - r) →
      injectField d w h x y r s = d) := by
  refine ⟨rfl, ?_, ?_⟩
  · intro a b ha hb
    have htlt : a * w + b < w * h := by
      have h2 : (a + 1) * w ≤ h * w := Nat.mul_le_mul_right w ha
      have h3 : (a + 1) * w = a * w + w := by ring
      have h4 : w * h = h * w := Nat.mul_comm w h
      omega
    show (inject d.buffer1 w h x y r s).getD (a * w + b) 0 = _
    rw [inject_getD d.buffer1 w h x y r s (a * w + b) (by omega),
      if_congr (inject_cover_iff w h x y r a b ha hb) rfl rfl]
  · intro hout
    rw [injectField, inject_of_outside d.buffer1 w h x y r s hout]

/-- Witness for C4: the §8 scenario, a 4×4 field, radius-1 square at (1,1):
cell (1,1) (index 5) is overwritten with 100, cell (2,2) (index 10) is
unchanged, and the scratch buffer is untouched. -/
theorem C4_inject_locality_witness :
    (injectField ⟨List.replicate 16 0, List.replicate 16 0⟩ 4 4 1 1 1 100).buffer2 =
      List.replicate 16 0 ∧
    (injectField ⟨List.replicate 16 0, List.replicate 16 0⟩ 4 4 1 1 1 100).buffer1.getD 5 0 =
      100 ∧
    (injectField ⟨List.replicate 16 0, List.replicate 16 0⟩ 4 4 1 1 1 100).buffer1.getD 10 0 =
      (List.replicate 16 (0 : ℚ)).getD 10 0 := by
  have hmain := C4_inject_locality ⟨List.replicate 16 0, List.replicate 16 0⟩ 4 4 1 1 1 100 rfl
  refine ⟨hmain.1, ?_, ?_⟩
  · have h2 := hmain.2.1 1 1 (by decide) (by decide)
    rw [if_pos (by decide)] at h2
    exact h2
  · have h2 := hmain.2.1 2 2 (by decide) (by decide)
    rw [if_neg (by decide)] at h2
    exact h2

/-- C10: a zero or negative disturbance radius makes both loops empty: no
cell of either buffer changes and no error is raised, for every centre
position and strength. -/
theorem C10_nonpositive_radius_noop (d : RippleData) (w h : ℕ) (x y r : ℤ) (s : ℚ)
    (hr : r ≤ 0) : injectField d w h x y r s = d := by
  have hempty : intRange (y - r) (y + r) = [] := by
    rw [intRange]
    have h0 : (y + r - (y - r)).toNat = 0 := by omega
    rw [h0]
    rfl
  rw [injectField, inject, hempty, List.foldl_nil]

/-- Witness for C10 at radius 0 and an off-field centre with radius -1. -/
theorem C10_nonpositive_radius_noop_witness :
    injectField ⟨[1, 2], [3, 4]⟩ 2 1 5 (-3) 0 50 = ⟨[1, 2], [3, 4]⟩ ∧
    injectField ⟨[1, 2], [3, 4]⟩ 2 1 0 0 (-1) 50 = ⟨[1, 2], [3, 4]⟩ :=
  ⟨C10_nonpositive_radius_noop ⟨[1, 2], [3, 4]⟩ 2 1 5 (-3) 0 50 (by decide),
    C10_nonpositive_radius_noop ⟨[1, 2], [3, 4]⟩ 2 1 0 0 (-1) 50 (by decide)⟩

/-! ## Long-run behaviour of repeated steps -/

/-- One physics step at `width = 1`, `height = 4` (`size = 4`), default
`speed = 2` and `viscosity = 0`. -/
def c7step (d : RippleData) : RippleData := stepField d 1 4 2 0

/-- A single unit impulse in the current buffer of a 1×4 field. -/
def c7z0 : RippleData := ⟨[0, 1, 0, 0], [0, 0, 0, 0]⟩

/-- The trajectory of repeated undisturbed steps from `c7z0`. -/
def c7state (n : ℕ) : RippleData := c7step^[n] c7z0

set_option maxRecDepth 8000 in
/-- C7 counterexample: with viscosity 0 ∈ [0,1), the undisturbed trajectory
from `c7z0` in a 1×4 field is periodic with period 6 and its total absolute
amplitude cycles through 1, 2, 1, 1, 2, 1, …; hence there is no step count
past which the sum is monotonically non-increasing. -/
theorem C7_counterexample :
    ¬ ∃ N : ℕ, ∀ n : ℕ, N ≤ n → energy (c7state (n + 1)) ≤ energy (c7state n) := by
  rintro ⟨N, hN⟩
  have hper : c7step^[6] c7z0 = c7z0 := by with_unfolding_all rfl
  have hmul : ∀ m : ℕ, c7step^[6 * m] c7z0 = c7z0 := by
    intro m
    induction m with
    | zero => rfl
    | succ m ih =>
      have e : 6 * (m + 1) = 6 * m + 6 := by ring
      rw [e, Function.iterate_add_apply, hper, ih]
  have h1 : energy (c7state (6 * N)) = 1 := by
    show energy (c7step^[6 * N] c7z0) = 1
    rw [hmul N]
    with_unfolding_all rfl
  have h2 : energy (c7state (6 * N + 1)) = 2 := by
    show energy (c7step^[6 * N + 1] c7z0) = 2
    have e : 6 * N + 1 = 1 + 6 * N := by ring
    rw [e, Function.iterate_add_apply, hmul N]
    with_unfolding_all rfl
  have hle := hN (6 * N) (by omega)
  rw [h1, h2] at hle
  norm_num at hle

/-- C7 amended: eventual per-step monotonicity of the total absolute
amplitude fails on the code (the dynamics admit periodic orbits whose sum
oscillates, see the counterexample); what one solver step does guarantee, for
every viscosity in [0,1] and every state, is the damping bound: the interior
scratch values it writes satisfy
`Σ |N'[i]| ≤ (1 - viscosity) * Σ ((|C[i-1]| + |C[i+1]| + |C[i-w]| + |C[i+w]|) / max 2 speed + |N[i]|)`. -/
theorem C7_damping_bound (b1 b2 : List ℚ) (w size : ℕ) (speed viscosity : ℚ)
    (h0 : 0 ≤ viscosity) (h1 : viscosity ≤ 1) (hlen : b2.length = size) :
    interiorAbsSum (solve b1 b2 w size speed viscosity) w size ≤
      (1 - viscosity) *
        ((interiorRange w size).map (fun i =>
          (|b1.getD (i - 1) 0| + |b1.getD (i + 1) 0| + |b1.getD (i - w) 0| +
              |b1.getD (i + w) 0|) / max 2 speed + |b2.getD i 0|)).sum := by
  rw [interiorAbsSum, ← List.sum_map_mul_left]
  apply List.sum_le_sum
  intro i hi
  rw [interiorRange] at hi
  have hib := List.mem_range'_1.mp hi
  have hgetd : (solve b1 b2 w size speed viscosity).getD i 0 =
      solveAt b1 (max 2 speed) (1 - viscosity) w b2 i := by
    rw [solve_getD, if_pos ⟨hib.1, by omega, by omega⟩]
  rw [hgetd, solveAt]
  have hs2 : (2 : ℚ) ≤ max 2 speed := le_max_left _ _
  have hspos : (0 : ℚ) < max 2 speed := by linarith
  have hd : 0 ≤ 1 - viscosity := by linarith
  have htri : |b1.getD (i - 1) 0 + b1.getD (i + 1) 0 + b1.getD (i - w) 0 + b1.getD (i + w) 0| ≤
      |b1.getD (i - 1) 0| + |b1.getD (i + 1) 0| + |b1.getD (i - w) 0| + |b1.getD (i + w) 0| := by
    calc |b1.getD (i - 1) 0 + b1.getD (i + 1) 0 + b1.getD (i - w) 0 + b1.getD (i + w) 0| ≤
        |b1.getD (i - 1) 0 + b1.getD (i + 1) 0 + b1.getD (i - w) 0| + |b1.getD (i + w) 0| :=
          abs_add _ _
      _ ≤ |b1.getD (i - 1) 0 + b1.getD (i + 1) 0| + |b1.getD (i - w) 0| + |b1.getD (i + w) 0| :=
          add_le_add_right (abs_add _ _) _
      _ ≤ |b1.getD (i - 1) 0| + |b1.getD (i + 1) 0| + |b1.getD (i - w) 0| + |b1.getD (i + w) 0| :=
          add_le_add_right (add_le_add_right (abs_add _ _) _) _
  have hsub : |(b1.getD (i - 1) 0 + b1.getD (i + 1) 0 + b1.getD (i - w) 0 + b1.getD (i + w) 0) /
        max 2 speed - b2.getD i 0| ≤
      (|b1.getD (i - 1) 0| + |b1.getD (i + 1) 0| + |b1.getD (i - w) 0| + |b1.getD (i + w) 0|) /
          max 2 speed + |b2.getD i 0| := by
    have habs : |(b1.getD (i - 1) 0 + b1.getD (i + 1) 0 + b1.getD (i - w) 0 + b1.getD (i + w) 0) /
          max 2 speed - b2.getD i 0| ≤
        |(b1.getD (i - 1) 0 + b1.getD (i + 1) 0 + b1.getD (i - w) 0 + b1.getD (i + w) 0) /
            max 2 speed| + |b2.getD i 0| := by
      have h3 := abs_add ((b1.getD (i - 1) 0 + b1.getD (i + 1) 0 + b1.getD (i - w) 0 +
        b1.getD (i + w) 0) / max 2 speed) (-(b2.getD i 0))
      rw [abs_neg] at h3
      rw [sub_eq_add_neg]
      exact h3
    refine habs.trans (add_le_add_right ?_ _)
    rw [abs_div, abs_of_pos hspos]
    exact (div_le_div_iff_of_pos_right hspos).mpr htri
  calc |((b1.getD (i - 1) 0 + b1.getD (i + 1) 0 + b1.getD (i - w) 0 + b1.getD (i + w) 0) /
          max 2 speed - b2.getD i 0) * (1 - viscosity)|
      = |(b1.getD (i - 1) 0 + b1.getD (i + 1) 0 + b1.getD (i - w) 0 + b1.getD (i + w) 0) /
          max 2 speed - b2.getD i 0| * (1 - viscosity) := by
        rw [abs_mul, abs_of_nonneg hd]
    _ ≤ ((|b1.getD (i - 1) 0| + |b1.getD (i + 1) 0| + |b1.getD (i - w) 0| +
          |b1.getD (i + w) 0|) / max 2 speed + |b2.getD i 0|) * (1 - viscosity) :=
        mul_le_mul_of_nonneg_right hsub hd
    _ = (1 - viscosity) * ((|b1.getD (i - 1) 0| + |b1.getD (i + 1) 0| + |b1.getD (i - w) 0| +
          |b1.getD (i + w) 0|) / max 2 speed + |b2.getD i 0|) := mul_comm _ _

/-- Witness for the amended C7 bound at `width = 1`, `size = 4`,
`viscosity = 1/2`. -/
theorem C7_damping_bound_witness :
    interiorAbsSum (solve [0, 1, 0, 0] [0, 0, 0, 0] 1 4 2 (1/2)) 1 4 ≤
      (1 - 1/2) *
        ((interiorRange 1 4).map (fun i =>
          (|[0, 1, 0, (0 : ℚ)].getD (i - 1) 0| + |[0, 1, 0, (0 : ℚ)].getD (i + 1) 0| +
              |[0, 1, 0, (0 : ℚ)].getD (i - 1) 0| +
              |[0, 1, 0, (0 : ℚ)].getD (i + 1) 0|) / max 2 2 + |[0, 0, 0, (0 : ℚ)].getD i 0|)).sum :=
  C7_damping_bound [0, 1, 0, 0] [0, 0, 0, 0] 1 4 2 (1/2) (by norm_num) (by norm_num) rfl

end WaterRipple
